import Mathlib

/-!
Verification of the pyBranchCheck merge-status checker (`app.py`).

The development shallowly embeds the Python source: Git plumbing calls
(`merge-base`, `log`, ref enumeration) are modelled over an explicit
commit-graph datatype, Python string operations are re-implemented over
`List Char` with Python semantics (e.g. `str.replace` replaces *all*
occurrences), and `datetime.fromtimestamp(..).strftime(..)` /
`datetime.strptime` are modelled by an executable civil-calendar conversion
(fixed UTC zone: none of the verified properties depend on the zone offset).
-/

namespace PyBranchCheck

/-! ## Python string primitives -/

/-- ASCII digit test, mirroring the `\d` class of Python regexes. -/
def isDigitChar (c : Char) : Bool := decide ('0' ≤ c) && decide (c ≤ '9')

/-- Numeric value of an ASCII digit character. -/
def dval (c : Char) : Nat := c.toNat - '0'.toNat

/-- ASCII digit character of a value `0..9` (larger values, which never occur,
clamp to `'9'`). -/
def digitChar : Nat → Char
  | 0 => '0' | 1 => '1' | 2 => '2' | 3 => '3' | 4 => '4'
  | 5 => '5' | 6 => '6' | 7 => '7' | 8 => '8' | _ => '9'

/-- Decimal digit characters of `n`, most significant first; `fuel` bounds the
recursion (`natDigits` supplies `n + 1`, always enough).  Mirrors Python's
`str(n)` for a nonnegative integer. -/
def natDigitsAux : Nat → Nat → List Char
  | 0, _ => []
  | fuel + 1, n =>
    if n < 10 then [digitChar n]
    else natDigitsAux fuel (n / 10) ++ [digitChar (n % 10)]

def natDigits (n : Nat) : List Char := natDigitsAux (n + 1) n

/-- Zero-padded two-digit rendering, as `strftime`'s `%m`/`%d`/`%H`/`%M`/`%S`. -/
def pad2 (n : Nat) : List Char := if n < 10 then '0' :: natDigits n else natDigits n

/-- Python's `needle in hay` substring test. -/
def pyContains (hay needle : String) : Bool := decide (needle.data <:+: hay.data)

/-- Python's `s.startswith(p)`. -/
def pyStartsWith (s p : String) : Bool := decide (p.data <+: s.data)

/-- Whitespace stripped by Python's `str.strip()` (ASCII subset; the repository
only strips ASCII request fields and keywords). -/
def isPySpace (c : Char) : Bool :=
  c = ' ' || c = '\t' || c = '\n' || c = '\r' || c = '\x0b' || c = '\x0c'

/-- Python's `str.strip()`. -/
def pyStrip (s : String) : String :=
  String.mk (((s.data.dropWhile isPySpace).reverse.dropWhile isPySpace).reverse)

/-- Splitter for Python's `s.split(sep)` with a nonempty separator; `fuel`
bounds the recursion (each step consumes at least one character). -/
def splitOnAux (sep : List Char) : Nat → List Char → List Char → List (List Char)
  | 0, acc, _ => [acc.reverse]
  | fuel + 1, acc, cs =>
    if sep.isPrefixOf cs && !sep.isEmpty then
      acc.reverse :: splitOnAux sep fuel [] (cs.drop sep.length)
    else
      match cs with
      | [] => [acc.reverse]
      | c :: rest => splitOnAux sep fuel (c :: acc) rest

/-- Python's `s.split(sep)` (no maxsplit). -/
def pySplit (s sep : String) : List String :=
  (splitOnAux sep.data (s.data.length + 1) [] s.data).map String.mk

/-- Remover underlying Python's `s.replace(pat, '')`: removes **every**
(leftmost, non-overlapping) occurrence of `pat`, not only a trailing one;
`fuel` bounds the recursion. -/
def rmAllAux (pat : List Char) : Nat → List Char → List Char
  | 0, cs => cs
  | _ + 1, [] => []
  | fuel + 1, c :: rest =>
    if pat.isPrefixOf (c :: rest) && !pat.isEmpty then
      rmAllAux pat fuel ((c :: rest).drop pat.length)
    else c :: rmAllAux pat fuel rest

/-- Python's `s.replace(pat, '')`. -/
def pyRemoveAll (s pat : String) : String :=
  String.mk (rmAllAux pat.data (s.data.length + 1) s.data)

/-- Python's `lst[-1]` on the result of `split` (which is never empty). -/
def lastSegmentOf (url : String) : String := (pySplit url "/").getLastD ""

/-- First line of a message: `msg.split('\n')[0]`. -/
def firstLineOf (msg : String) : String := (pySplit msg "\n").headD ""

/-- `hexsha[:8]`, the 8-character short hash. -/
def shortHash (h : String) : String := h.take 8

/-! ## Civil calendar: `datetime.fromtimestamp(..).strftime('%Y-%m-%d %H:%M:%S')` -/

def isLeapYear (y : Nat) : Bool := (y % 4 = 0 && y % 100 != 0) || y % 400 = 0

def daysInYear (y : Nat) : Nat := if isLeapYear y then 366 else 365

def monthLens (y : Nat) : List Nat :=
  [31, if isLeapYear y then 29 else 28, 31, 30, 31, 30, 31, 31, 30, 31, 30, 31]

/-- Walk years forward from 1970 consuming whole years of days; returns
`(year, day-of-year)`.  The accumulator year only ever increases. -/
def yearFromDays : Nat → Nat → Nat → Nat × Nat
  | 0, y, d => (y, d)
  | fuel + 1, y, d =>
    if d < daysInYear y then (y, d) else yearFromDays fuel (y + 1) (d - daysInYear y)

/-- Walk the month-length table; returns `(month, day-of-month - 1)`. -/
def monthFromDoy : Nat → List Nat → Nat → Nat × Nat
  | m, [], d => (m, d)
  | m, len :: rest, d => if d < len then (m, d) else monthFromDoy (m + 1) rest (d - len)

/-- Civil `(year, month, day)` from days since the Unix epoch. -/
def civilFromDays (days : Nat) : Nat × Nat × Nat :=
  let yd := yearFromDays (days / 365 + 1) 1970 days
  let md := monthFromDoy 1 (monthLens yd.1) yd.2
  (yd.1, md.1, md.2 + 1)

/-- Embeds `datetime.fromtimestamp(ts).strftime('%Y-%m-%d %H:%M:%S')` at a
fixed UTC zone (no verified property depends on the local-zone offset). -/
def formatTimestamp (ts : Nat) : String :=
  let days := ts / 86400
  let rem := ts % 86400
  let c := civilFromDays days
  String.mk (natDigits c.1 ++ '-' ::
    (pad2 c.2.1 ++ '-' ::
      (pad2 c.2.2 ++ ' ' ::
        (pad2 (rem / 3600) ++ ':' ::
          (pad2 (rem % 3600 / 60) ++ ':' :: pad2 (rem % 60))))))

/-! ## `datetime.strptime(s, '%Y-%m-%d %H:%M:%S')`

Python datetimes compare lexicographically on
(year, month, day, hour, minute, second); we represent them as nested
lexicographic pairs so that Mathlib's `Prod.Lex` linear order is exactly the
datetime order. -/

abbrev DT6 := Lex (Nat × Lex (Nat × Lex (Nat × Lex (Nat × Lex (Nat × Nat)))))

def mkDT (y mo d h mi s : Nat) : DT6 :=
  toLex (y, toLex (mo, toLex (d, toLex (h, toLex (mi, s)))))

/-- `datetime.min` = 0001-01-01 00:00:00. -/
def minDT : DT6 := mkDT 1 1 1 0 0 0

def readDigit : List Char → Option (Nat × List Char)
  | c :: rest => if isDigitChar c then some (dval c, rest) else none
  | [] => none

def expectChar (c : Char) : List Char → Option (List Char)
  | x :: rest => if x = c then some rest else none
  | [] => none

/-- `%m` field: regex `1[0-2]|0[1-9]|[1-9]`, alternatives in Python's order. -/
def readMonth (cs : List Char) : Option (Nat × List Char) :=
  (match cs with
   | '1' :: b :: rest =>
     if decide ('0' ≤ b) && decide (b ≤ '2') then some (10 + dval b, rest) else none
   | _ => none)
  <|>
  (match cs with
   | '0' :: b :: rest =>
     if decide ('1' ≤ b) && decide (b ≤ '9') then some (dval b, rest) else none
   | _ => none)
  <|>
  (match cs with
   | b :: rest =>
     if decide ('1' ≤ b) && decide (b ≤ '9') then some (dval b, rest) else none
   | _ => none)

/-- `%d` field: regex `3[01]|[12]\d|0[1-9]|[1-9]| [1-9]`. -/
def readDay (cs : List Char) : Option (Nat × List Char) :=
  (match cs with
   | '3' :: b :: rest => if b = '0' || b = '1' then some (30 + dval b, rest) else none
   | _ => none)
  <|>
  (match cs with
   | a :: b :: rest =>
     if (a = '1' || a = '2') && isDigitChar b then some (dval a * 10 + dval b, rest) else none
   | _ => none)
  <|>
  (match cs with
   | '0' :: b :: rest =>
     if decide ('1' ≤ b) && decide (b ≤ '9') then some (dval b, rest) else none
   | _ => none)
  <|>
  (match cs with
   | b :: rest =>
     if decide ('1' ≤ b) && decide (b ≤ '9') then some (dval b, rest) else none
   | _ => none)
  <|>
  (match cs with
   | ' ' :: b :: rest =>
     if decide ('1' ≤ b) && decide (b ≤ '9') then some (dval b, rest) else none
   | _ => none)

/-- `%H` field: regex `2[0-3]|[0-1]\d|\d`. -/
def readHour (cs : List Char) : Option (Nat × List Char) :=
  (match cs with
   | '2' :: b :: rest =>
     if decide ('0' ≤ b) && decide (b ≤ '3') then some (20 + dval b, rest) else none
   | _ => none)
  <|>
  (match cs with
   | a :: b :: rest =>
     if (a = '0' || a = '1') && isDigitChar b then some (dval a * 10 + dval b, rest) else none
   | _ => none)
  <|>
  (match cs with
   | b :: rest => if isDigitChar b then some (dval b, rest) else none
   | _ => none)

/-- `%M` field: regex `[0-5]\d|\d`. -/
def readMinute (cs : List Char) : Option (Nat × List Char) :=
  (match cs with
   | a :: b :: rest =>
     if (decide ('0' ≤ a) && decide (a ≤ '5')) && isDigitChar b then
       some (dval a * 10 + dval b, rest)
     else none
   | _ => none)
  <|>
  (match cs with
   | b :: rest => if isDigitChar b then some (dval b, rest) else none
   | _ => none)

/-- `%S` field: regex `6[0-1]|[0-5]\d|\d` (leap seconds 60/61 are matched by
the regex but rejected by the `datetime` constructor below). -/
def readSecond (cs : List Char) : Option (Nat × List Char) :=
  (match cs with
   | '6' :: b :: rest => if b = '0' || b = '1' then some (60 + dval b, rest) else none
   | _ => none)
  <|>
  (match cs with
   | a :: b :: rest =>
     if (decide ('0' ≤ a) && decide (a ≤ '5')) && isDigitChar b then
       some (dval a * 10 + dval b, rest)
     else none
   | _ => none)
  <|>
  (match cs with
   | b :: rest => if isDigitChar b then some (dval b, rest) else none
   | _ => none)

def daysInMonth (y mo : Nat) : Nat := (monthLens y).getD (mo - 1) 31

/-- Parse `"MM-DD HH:MM:SS"` after the year and apply the `datetime`
constructor's range validation.  (Field alternatives are committed in
Python's regex order; on the zero-padded canonical strings produced by
`strftime` this agrees with full regex backtracking.) -/
def parseAfterYear (y : Nat) (cs : List Char) :
    Option (Lex (Nat × Lex (Nat × Lex (Nat × Lex (Nat × Nat))))) := do
  let (mo, cs) ← readMonth cs
  let cs ← expectChar '-' cs
  let (d, cs) ← readDay cs
  let cs ← expectChar ' ' cs
  let (h, cs) ← readHour cs
  let cs ← expectChar ':' cs
  let (mi, cs) ← readMinute cs
  let cs ← expectChar ':' cs
  let (s, cs) ← readSecond cs
  match cs with
  | [] =>
    if 1 ≤ y && (1 ≤ d && d ≤ daysInMonth y mo) && s ≤ 59 then
      pure (toLex (mo, toLex (d, toLex (h, toLex (mi, s)))))
    else none
  | _ => none

/-- The `%Y` field (exactly four digits, per Python's `_strptime` regex) and
the rest of the format. -/
def parseDateTimeChars (cs : List Char) : Option DT6 := do
  let (y1, cs) ← readDigit cs
  let (y2, cs) ← readDigit cs
  let (y3, cs) ← readDigit cs
  let (y4, cs) ← readDigit cs
  let cs ← expectChar '-' cs
  let y := ((y1 * 10 + y2) * 10 + y3) * 10 + y4
  let t ← parseAfterYear y cs
  pure (toLex (y, t))

/-- Embeds `datetime.strptime(str, '%Y-%m-%d %H:%M:%S')`; `none` models the
`ValueError` raised on a non-matching string or out-of-range field. -/
def parseDateTime (str : String) : Option DT6 := parseDateTimeChars str.data

/-- Value of a digit string, most significant first (specification-side helper
for the round-trip lemmas about `natDigits`). -/
def valDigits (cs : List Char) : Nat := cs.foldl (fun a c => a * 10 + dval c) 0

/-! ## Git object model

The repository is a finite commit graph plus named refs.  Git plumbing used by
`app.py` (`merge-base --is-ancestor`, `merge-base a b == a`, `git log`) is
modelled over this graph:
* ancestor testing is reachability along parent edges;
* `git merge-base src tgt == src` holds exactly when `src` is an ancestor of
  `tgt` (when it is not, either the merge-base differs from `src` or the
  command fails with no common ancestor — both make `check_merge_info` report
  not-merged, just like the model);
* `git log <tip> [--merges] [--grep=s] -n k` is the reachable commits of
  `<tip>`, newest first (commit-date order), filtered by merge-ness and by the
  message containing `s` (branch names are grepped literally; this models the
  substring contract the code relies on), truncated to `k`. -/

structure Commit where
  hexsha : String
  committedDate : Nat
  authorName : String
  authorEmail : String
  message : String
  parents : List String
  deriving Repr, DecidableEq

structure RemoteInfo where
  name : String
  url : String
  /-- remote-tracking refs as (full ref name `"<remote>/<branch>"`, commit id). -/
  refs : List (String × String)
  deriving Repr, DecidableEq

structure Repo where
  commits : List Commit
  /-- local branches as (name, tip commit id). -/
  heads : List (String × String)
  remotes : List RemoteInfo
  deriving Repr, DecidableEq

def lookupCommit (r : Repo) (h : String) : Option Commit :=
  r.commits.find? (fun c => c.hexsha = h)

/-- One BFS layer: parents of every commit id in the list (ids without a
commit object contribute nothing, like unresolvable objects in git). -/
def stepParents (r : Repo) (hs : List String) : List String :=
  hs.flatMap (fun h => match lookupCommit r h with | some c => c.parents | none => [])

/-- Saturating reachability: grow the accumulator by fresh parents until no
new commit id appears (the fuel `r.commits.length + 1` always suffices). -/
def ancestorsAux (r : Repo) : Nat → List String → List String
  | 0, acc => acc
  | fuel + 1, acc =>
    let fresh := ((stepParents r acc).filter (fun h => !acc.contains h)).eraseDups
    if fresh.isEmpty then acc else ancestorsAux r fuel (acc ++ fresh)

def ancestorClosure (r : Repo) (h : String) : List String :=
  ancestorsAux r (r.commits.length + 1) [h]

/-- `git merge-base --is-ancestor a b`: is `a` reachable from `b`? -/
def isAncestor (r : Repo) (a b : String) : Bool := (ancestorClosure r b).contains a

/-- `_get_branch_ref`: local branch first, then the first remote carrying a
`"<remote>/<branch>"` tracking ref; yields the ref's commit id. -/
def getBranchRefHash (r : Repo) (branch_name : String) : Option String :=
  match r.heads.find? (fun p => p.1 = branch_name) with
  | some p => some p.2
  | none =>
    r.remotes.findSome? (fun rem =>
      (rem.refs.find? (fun pr => pr.1 = rem.name ++ "/" ++ branch_name)).map (fun pr => pr.2))

/-- `_get_branch_last_commit`: the resolved ref's commit object (`none` also
models the exception raised on an unresolvable object, which every caller
turns into a not-merged/unknown answer). -/
def getBranchLastCommit (r : Repo) (branch_name : String) : Option Commit :=
  match getBranchRefHash r branch_name with
  | some h => lookupCommit r h
  | none => none

/-- Newest-first ordering used by `git log` (commit-date descending). -/
def newestFirst (l : List Commit) : List Commit :=
  l.insertionSort (fun a b => b.committedDate ≤ a.committedDate)

/-- The commits listed by `git log <tipHash>`: reachable commits, newest
first. -/
def reachableCommits (r : Repo) (tipHash : String) : List Commit :=
  newestFirst ((ancestorClosure r tipHash).filterMap (lookupCommit r))

/-- `git log <tipHash> --merges --grep=<g> -n <n>`. -/
def gitLogMerges (r : Repo) (tipHash g : String) (n : Nat) : List Commit :=
  ((reachableCommits r tipHash).filter
    (fun c => decide (2 ≤ c.parents.length) && pyContains c.message g)).take n

/-- `git log <tipHash> --grep=<g> -n <n>` (no `--merges`). -/
def gitLogPlain (r : Repo) (tipHash g : String) (n : Nat) : List Commit :=
  ((reachableCommits r tipHash).filter (fun c => pyContains c.message g)).take n

/-! ## `_extract_merge_request_id` -/

/-- Case-insensitive character comparison (`re.IGNORECASE`). -/
def ciEq (a b : Char) : Bool := a.toLower = b.toLower

/-- Match a literal (case-insensitively) at the head of `cs`; return the rest. -/
def matchLit : List Char → List Char → Option (List Char)
  | [], cs => some cs
  | _ :: _, [] => none
  | l :: lt, c :: ct => if ciEq l c then matchLit lt ct else none

/-- `re.search(lit + r'(\d+)', s, re.IGNORECASE)`: leftmost position where the
literal is followed by at least one digit; the captured group is the maximal
digit run. -/
def scanLitDigits (lit : List Char) : List Char → Option (List Char)
  | [] => none
  | c :: rest =>
    (match matchLit lit (c :: rest) with
     | some after =>
       let ds := after.takeWhile isDigitChar
       if ds.isEmpty then none else some ds
     | none => none)
    <|> scanLitDigits lit rest

/-- `_extract_merge_request_id`: the six patterns tried in the source's fixed
priority order, each formatted as in the source (`!N`, `#N`, `PR N`). -/
def extract_merge_request_id (commit_message : String) : Option String :=
  let cs := commit_message.data
  match scanLitDigits "merge request !".data cs with
  | some ds => some ("!" ++ String.mk ds)
  | none =>
    match scanLitDigits "!".data cs with
    | some ds => some ("!" ++ String.mk ds)
    | none =>
      match scanLitDigits "pull request #".data cs with
      | some ds => some ("#" ++ String.mk ds)
      | none =>
        match scanLitDigits "#".data cs with
        | some ds => some ("#" ++ String.mk ds)
        | none =>
          match scanLitDigits "PR ".data cs with
          | some ds => some ("PR " ++ String.mk ds)
          | none =>
            match scanLitDigits "pr ".data cs with
            | some ds => some ("PR " ++ String.mk ds)
            | none => none

/-! ## `check_merge_info` and `_find_merge_commit_efficient` -/

/-- The dictionary returned by `check_merge_info`.  A field valued `none` (for
`merge_author`, `mr_id`, `commit_hash`) models the *absence* of the key from
the Python dict; `mr_id = some none` models the key being present with value
`None`. -/
structure MergeResolution where
  is_merged : Bool
  merge_date : Option String
  merge_commit : Option String
  merge_author : Option String := none
  mr_id : Option (Option String) := none
  commit_hash : Option String := none
  deriving Repr, DecidableEq

/-- `{'is_merged': False, 'merge_date': None, 'merge_commit': None}`. -/
def notMergedInfo : MergeResolution :=
  { is_merged := false, merge_date := none, merge_commit := none }

/-- `_find_merge_commit_efficient`: grep the last 50 merge commits of the
target for the source branch name, take the first (newest) one that really has
the source tip as ancestor; failing that, grep 10 commits for the source short
hash and accept an exact hash match as a direct commit; failing that, `None`. -/
def find_merge_commit_efficient (r : Repo) (source_commit_id tgtTipHash source_branch : String) :
    Option MergeResolution :=
  match (gitLogMerges r tgtTipHash source_branch 50).find?
      (fun c => isAncestor r source_commit_id c.hexsha) with
  | some c =>
    some { is_merged := true
           merge_date := some (formatTimestamp c.committedDate)
           merge_commit := some (match extract_merge_request_id (firstLineOf c.message) with
             | some m => m ++ " (" ++ shortHash c.hexsha ++ ")"
             | none => shortHash c.hexsha ++ " (合并提交)")
           merge_author := some c.authorName
           mr_id := some (extract_merge_request_id (firstLineOf c.message))
           commit_hash := some (shortHash c.hexsha) }
  | none =>
    match (gitLogPlain r tgtTipHash (shortHash source_commit_id) 10).find?
        (fun c => c.hexsha = source_commit_id) with
    | some c =>
      some { is_merged := true
             merge_date := some (formatTimestamp c.committedDate)
             merge_commit := some (shortHash c.hexsha ++ " (直接提交)")
             merge_author := some c.authorName
             mr_id := some none
             commit_hash := some (shortHash c.hexsha) }
    | none => none

/-- `check_merge_info`: resolve both refs (failure → not merged), test
`merge_base(src, tgt) == src` (equivalently: the source tip is an ancestor of
the target tip), then locate the responsible merge commit, falling back to the
"直接合并" (fast-forward / direct push) answer. -/
def check_merge_info (r : Repo) (source_branch target_branch : String) : MergeResolution :=
  match getBranchRefHash r target_branch with
  | none => notMergedInfo
  | some tgtTipHash =>
    match getBranchLastCommit r source_branch with
    | none => notMergedInfo
    | some source_commit =>
      if isAncestor r source_commit.hexsha tgtTipHash then
        match find_merge_commit_efficient r source_commit.hexsha tgtTipHash source_branch with
        | some info => info
        | none =>
          { is_merged := true
            merge_date := some (formatTimestamp source_commit.committedDate)
            merge_commit := some (shortHash source_commit.hexsha ++ " (直接合并)")
            merge_author := some source_commit.authorName
            mr_id := some none
            commit_hash := some (shortHash source_commit.hexsha) }
      else notMergedInfo

/-! ## `get_all_branches` (Branch Enumerator) -/

/-- One row of the branch listing.  The Python dict drops the raw
`last_commit_timestamp` key after sorting; the model keeps the field (no
claim mentions it) and records the 1-based `index` assigned after sorting. -/
structure BranchInfo where
  name : String
  type : String
  last_commit : String
  last_commit_date : String
  last_commit_timestamp : Nat
  author_name : String
  author_email : String
  commit_message : String
  index : Nat := 0
  deriving Repr, DecidableEq

def localBranchEntry (nm : String) (c : Commit) : BranchInfo :=
  { name := nm
    type := "local"
    last_commit := shortHash c.hexsha
    last_commit_date := formatTimestamp c.committedDate
    last_commit_timestamp := c.committedDate
    author_name := c.authorName
    author_email := c.authorEmail
    commit_message := firstLineOf (pyStrip c.message) }

def remoteBranchEntry (remName bn : String) (c : Commit) : BranchInfo :=
  { localBranchEntry bn c with type := "remote (" ++ remName ++ ")" }

/-- The local-branch loop.  An unresolvable tip commit raises inside the one
big `try` of `get_all_branches`, aborting the whole enumeration with the rows
accumulated so far (unsorted, remotes skipped); the `Bool` is that abort
flag. -/
def collectLocals (r : Repo) : List (String × String) → List BranchInfo × Bool
  | [] => ([], false)
  | (nm, h) :: t =>
    match lookupCommit r h with
    | none => ([], true)
    | some c =>
      let rest := collectLocals r t
      (localBranchEntry nm c :: rest.1, rest.2)

/-- `ref.name.replace(f"{remote.name}/", "")` — a replace-**all**. -/
def stripRemoteName (remName refName : String) : String :=
  pyRemoveAll refName (remName ++ "/")

/-- The dedup test of the remote loop: it only suppresses a remote-tracking
branch when a **local** entry of that name is already listed (entries from
other remotes never block, their `type` is not `"local"`). -/
def hasLocalNamed (acc : List BranchInfo) (bn : String) : Bool :=
  acc.any (fun b => b.name = bn && b.type = "local")

/-- The remote-refs loop for one remote (per-ref failures `continue`). -/
def addRemoteRefs (r : Repo) (rem : RemoteInfo) :
    List BranchInfo → List (String × String) → List BranchInfo
  | acc, [] => acc
  | acc, (refName, h) :: t =>
    if refName = rem.name ++ "/HEAD" then addRemoteRefs r rem acc t
    else if hasLocalNamed acc (stripRemoteName rem.name refName) then addRemoteRefs r rem acc t
    else
      match lookupCommit r h with
      | none => addRemoteRefs r rem acc t
      | some c =>
        addRemoteRefs r rem
          (acc ++ [remoteBranchEntry rem.name (stripRemoteName rem.name refName) c]) t

def addAllRemotes (r : Repo) : List BranchInfo → List RemoteInfo → List BranchInfo
  | acc, [] => acc
  | acc, rem :: t => addAllRemotes r (addRemoteRefs r rem acc rem.refs) t

/-- `branches.sort(key=lambda x: x['last_commit_timestamp'], reverse=True)`
(Python's sort is stable; so is insertion sort by the same key order). -/
def sortBranches (l : List BranchInfo) : List BranchInfo :=
  l.insertionSort (fun a b => b.last_commit_timestamp ≤ a.last_commit_timestamp)

def indexBranchesAux : Nat → List BranchInfo → List BranchInfo
  | _, [] => []
  | i, b :: t => { b with index := i } :: indexBranchesAux (i + 1) t

def indexBranches (l : List BranchInfo) : List BranchInfo := indexBranchesAux 1 l

/-- The stripped non-HEAD tracking-ref names of one remote. -/
def strippedNames (rem : RemoteInfo) (refs : List (String × String)) : List String :=
  (refs.filter (fun pr => pr.1 ≠ rem.name ++ "/HEAD")).map
    (fun pr => stripRemoteName rem.name pr.1)

/-- `get_all_branches`; `none` models `self.repo` being unset (connect never
ran or failed), which returns `[]`. -/
def get_all_branches (o : Option Repo) : List BranchInfo :=
  match o with
  | none => []
  | some r =>
    let lb := collectLocals r r.heads
    if lb.2 then lb.1
    else indexBranches (sortBranches (addAllRemotes r lb.1 r.remotes))

/-- `get_branch_author_info`: local branch tip's author, else first remote's
tracking-ref tip's author, else the `"未知"` placeholders. -/
def get_branch_author_info (r : Repo) (branch_name : String) : String × String :=
  let fromLocal :=
    match r.heads.find? (fun p => p.1 = branch_name) with
    | some p => lookupCommit r p.2
    | none => none
  let bc :=
    match fromLocal with
    | some c => some c
    | none =>
      r.remotes.findSome? (fun (rem : RemoteInfo) =>
        match rem.refs.find? (fun (pr : String × String) => pr.1 = rem.name ++ "/" ++ branch_name) with
        | some pr => lookupCommit r pr.2
        | none => none)
  match bc with
  | some c => (c.authorName, c.authorEmail)
  | none => ("未知", "未知")

/-! ## Platform configuration (`_identify_repo_platform` and friends) -/

/-- A platform profile.  `sshPrefixStr` / `httpsPrefixStr` model the JSON keys
`ssh_prefix` / `https_prefix` (a `.get(key, '')`: a missing key reads as
`""`). -/
structure Platform where
  name : String
  base_url : String
  merge_request_path : String
  commit_path : String
  sshPrefixStr : String
  httpsPrefixStr : String
  deriving Repr, DecidableEq

/-- A configured repository entry; `platform = none` models a missing
`"platform"` key (`repo.get('platform')` → `None`). -/
structure RepoEntry where
  name : String
  url : String
  type : String
  platform : Option String
  deriving Repr, DecidableEq

/-- The persisted configuration; `platforms` is the JSON object as an
insertion-ordered association list (Python dicts preserve insertion order). -/
structure Config where
  repositories : List RepoEntry
  platforms : List (String × Platform)
  deriving Repr, DecidableEq

/-- `_set_default_platform`'s built-in profile. -/
def defaultPlatform : Platform :=
  { name := "阿里云Code"
    base_url := "https://code.aliyun.com"
    merge_request_path := "/-/merge_requests/"
    commit_path := "/-/commit/"
    sshPrefixStr := "git@code.aliyun.com:"
    httpsPrefixStr := "https://code.aliyun.com/" }

def lookupPlatform (cfg : Config) (k : String) : Option Platform :=
  (cfg.platforms.find? (fun p => p.1 = k)).map (fun p => p.2)

/-- `_auto_identify_platform`: first profile whose ssh/https URL start matches
(empty ones are falsy and never match) or whose key occurs anywhere in the
input; else the built-in default. -/
def auto_identify_platform (cfg : Config) (repo_input : String) : Option Platform :=
  match cfg.platforms.find? (fun p =>
      (p.2.sshPrefixStr ≠ "" && pyStartsWith repo_input p.2.sshPrefixStr) ||
      (p.2.httpsPrefixStr ≠ "" && pyStartsWith repo_input p.2.httpsPrefixStr) ||
      pyContains repo_input p.1) with
  | some p => some p.2
  | none => some defaultPlatform

/-- `_identify_repo_platform`: when the input URL matches a configured
repository entry it **returns** after the key lookup — a falsy or unknown
platform key leaves the profile unset (`none`), with no fallback scan. -/
def identify_repo_platform (cfg : Config) (repo_input : String) : Option Platform :=
  match cfg.repositories.find? (fun e => e.url = repo_input) with
  | some e =>
    match e.platform with
    | some k =>
      if k ≠ "" && (lookupPlatform cfg k).isSome then lookupPlatform cfg k else none
    | none => none
  | none => auto_identify_platform cfg repo_input

/-! ## `connect_repo`, remote-cache naming -/

/-- Outcome of `git.Repo(path)` on an existing path. -/
inductive GitOpenResult where
  | ok
  | invalidRepo
  | otherErr (msg : String)
  deriving Repr, DecidableEq

/-- Filesystem / toolchain oracle for `connect_repo`.  The remote flow
(`_clone_or_fetch_remote`) shells out to clone/fetch and is kept as an oracle;
its cache-directory naming, the only part a claim mentions, is modelled
separately by `cacheDirName`. -/
structure LocalEnv where
  pathExists : String → Bool
  openRepo : String → GitOpenResult
  remoteOutcome : String → Bool × String

/-- `_is_remote_url`: starts with `git@` / `https://` / `http://`, or merely
*contains* `.git`. -/
def is_remote_url (url : String) : Bool :=
  pyStartsWith url "git@" || pyStartsWith url "https://" || pyStartsWith url "http://" ||
    pyContains url ".git"

def msgNotFound : String := "仓库路径不存在"
def msgInvalidRepo : String := "不是有效的Git仓库"

/-- `connect_repo` (success flag, message). -/
def connect_repo (env : LocalEnv) (repo_input : String) : Bool × String :=
  if is_remote_url repo_input then env.remoteOutcome repo_input
  else if !env.pathExists repo_input then (false, msgNotFound)
  else
    match env.openRepo repo_input with
    | .ok => (true, "本地仓库连接成功")
    | .invalidRepo => (false, msgInvalidRepo)
    | .otherErr m => (false, "连接失败: " ++ m)

/-- `_clone_or_fetch_remote`'s cache-directory name:
`repo_input.split('/')[-1].replace('.git', '')` — note the replace-all. -/
def cacheDirName (repo_input : String) : String :=
  pyRemoveAll (lastSegmentOf repo_input) ".git"

/-- Modelled from the spec claim's words: strip a `.git` suffix **only when
trailing** (used solely to compare against the source's behaviour). -/
def stripTrailingGit (s : String) : String :=
  if ".git".data <:+ s.data then String.mk (s.data.take (s.data.length - 4)) else s

/-- Independent formulation of "remove every occurrence of `.git`", used to
state the amended cache-naming property without restating `pyRemoveAll`. -/
def removeGitSpec : List Char → List Char
  | [] => []
  | c :: rest =>
    if (c :: rest).take 4 = ".git".data then removeGitSpec ((c :: rest).drop 4)
    else c :: removeGitSpec rest
termination_by cs => cs.length
decreasing_by
  · simp [List.length_drop]; omega
  · simp

/-! ## `check_branch_merge_status` (Report Assembler) -/

/-- One result row.  `merge_author` is `merge_info.get('merge_author', '未知')`;
`mr_id` / `commit_hash` are plain `.get`s (absent key → `None`). -/
structure ResultRow where
  branch_name : String
  is_merged : Bool
  merge_date : Option String
  merge_commit : Option String
  merge_author : String
  author_name : String
  author_email : String
  gitlab_url : String
  project_path : String
  platform_config : Option Platform
  mr_id : Option String
  commit_hash : Option String
  deriving Repr, DecidableEq

def get_gitlab_base_url (pc : Option Platform) : String :=
  match pc with
  | some p => p.base_url
  | none => "https://gitlab.com"

/-- `_get_project_path`: strip the matching platform prefix and every `.git`
from the first matching remote URL (both `str.replace` calls replace all
occurrences). -/
def get_project_path (pc : Option Platform) (o : Option Repo) : String :=
  match pc, o with
  | some p, some r =>
    (r.remotes.findSome? (fun rem =>
      if p.sshPrefixStr ≠ "" && pyStartsWith rem.url p.sshPrefixStr then
        some ("/" ++ pyRemoveAll (pyRemoveAll rem.url p.sshPrefixStr) ".git")
      else if p.httpsPrefixStr ≠ "" && pyStartsWith rem.url p.httpsPrefixStr then
        let pp := pyRemoveAll (pyRemoveAll rem.url p.httpsPrefixStr) ".git"
        some (if pyStartsWith pp "/" then pp else "/" ++ pp)
      else none)).getD ""
  | _, _ => ""

def rowOf (pc : Option Platform) (r : Repo) (gurl ppath bn target_branch : String) : ResultRow :=
  let mi := check_merge_info r bn target_branch
  let ai := get_branch_author_info r bn
  { branch_name := bn
    is_merged := mi.is_merged
    merge_date := mi.merge_date
    merge_commit := mi.merge_commit
    merge_author := mi.merge_author.getD "未知"
    author_name := ai.1
    author_email := ai.2
    gitlab_url := gurl
    project_path := ppath
    platform_config := pc
    mr_id := mi.mr_id.join
    commit_hash := mi.commit_hash }

/-- Local branch names plus stripped remote-tracking names (HEAD excluded). -/
def allBranchNames (r : Repo) : List String :=
  r.heads.map (fun p => p.1) ++
    r.remotes.flatMap (fun (rem : RemoteInfo) =>
      (rem.refs.filter (fun pr => pr.1 ≠ rem.name ++ "/HEAD")).map
        (fun pr => stripRemoteName rem.name pr.1))

/-- `[k.strip() for k in keyword.split(',') if k.strip()]`. -/
def keywordList (keyword : String) : List String :=
  ((pySplit keyword ",").map pyStrip).filter (fun k => k ≠ "")

/-- Python's `(1, parsed-date) / (1, datetime.min) / (0, datetime.min)`
two-level sort key, as a lexicographic pair. -/
def rowKey (row : ResultRow) : Lex (Nat × DT6) :=
  match row.merge_date with
  | some s =>
    if row.is_merged && s ≠ "" then
      match parseDateTime s with
      | some d => toLex (1, d)
      | none => toLex (1, minDT)
    else toLex (0, minDT)
  | none => toLex (0, minDT)

/-- `results.sort(key=sort_key, reverse=True)`: `a` may precede `b`. -/
def rowGe (a b : ResultRow) : Prop := rowKey b ≤ rowKey a

instance : DecidableRel rowGe :=
  fun a b => inferInstanceAs (Decidable (rowKey b ≤ rowKey a))

instance : IsTotal ResultRow rowGe :=
  ⟨fun a b => le_total (rowKey b) (rowKey a)⟩

instance : IsTrans ResultRow rowGe :=
  ⟨fun _ _ _ h1 h2 => le_trans h2 h1⟩

/-- The pre-sort result rows of `check_branch_merge_status`: gather branch
names, dedup (`set(...)`; its iteration order is arbitrary in Python — every
verified ordering property is independent of it), keep those containing a
keyword, and resolve each. -/
def resultsFor (pc : Option Platform) (r : Repo) (keyword target_branch : String) :
    List ResultRow :=
  ((allBranchNames r).eraseDups.filter
      (fun b => (keywordList keyword).any (fun kw => pyContains b kw))).map
    (fun bn => rowOf pc r (get_gitlab_base_url pc) (get_project_path pc (some r))
      bn target_branch)

/-- `check_branch_merge_status`: the result rows sorted with the two-level key
descending (Python's stable sort = stable insertion sort over the same key
order). -/
def check_branch_merge_status (pc : Option Platform) (o : Option Repo)
    (keyword target_branch : String) : List ResultRow :=
  match o with
  | none => []
  | some r => (resultsFor pc r keyword target_branch).insertionSort rowGe

/-! ## `add_repository` endpoint -/

/-- Request body of `POST /api/config/repository` (a missing field reads as
its `data.get(...)` default). -/
structure AddRepoRequest where
  name : String
  url : String
  type : String := "ssh"
  platform : String := ""
  deriving Repr, DecidableEq

/-- Endpoint outcome: response flag/message, whether `save_config` was
invoked, and the resulting persisted configuration (the model lets the save
itself succeed; the claims under verification concern the no-save paths). -/
structure AddRepoResult where
  success : Bool
  message : String
  savePerformed : Bool
  config : Config
  deriving Repr, DecidableEq

/-- The duplicate-check loop: name is tested before url for each entry, first
hit wins. -/
def findDupMessage : List RepoEntry → String → String → Option String
  | [], _, _ => none
  | e :: t, nm, u =>
    if e.name = nm then some ("仓库名称 \"" ++ nm ++ "\" 已存在")
    else if e.url = u then some "仓库URL已存在"
    else findDupMessage t nm u

/-- `add_repository` route body (`req = none` models a missing/invalid JSON
body). -/
def add_repository (persisted : Config) (req : Option AddRepoRequest) : AddRepoResult :=
  match req with
  | none =>
    { success := false, message := "请求数据格式错误", savePerformed := false, config := persisted }
  | some data =>
    let nm := pyStrip data.name
    let u := pyStrip data.url
    if nm = "" || u = "" then
      { success := false, message := "仓库名称和URL不能为空", savePerformed := false
        config := persisted }
    else
      match findDupMessage persisted.repositories nm u with
      | some msg =>
        { success := false, message := msg, savePerformed := false, config := persisted }
      | none =>
        let newRepo : RepoEntry := { name := nm, url := u, type := data.type
                                     platform := some data.platform }
        { success := true, message := "仓库添加成功", savePerformed := true
          config := { persisted with repositories := persisted.repositories ++ [newRepo] } }

/-! ## Predicates used in the sorting claim -/

/-- The row is merged and its merge date is a truthy string parsing to `d`. -/
def mergedWithParsedDate (row : ResultRow) (d : DT6) : Prop :=
  row.is_merged = true ∧ ∃ s, row.merge_date = some s ∧ s ≠ "" ∧ parseDateTime s = some d

/-- The row is merged with a truthy merge-date string that fails to parse. -/
def mergedUnparsable (row : ResultRow) : Prop :=
  row.is_merged = true ∧ ∃ s, row.merge_date = some s ∧ s ≠ "" ∧ parseDateTime s = none

/-! ## Concrete repositories and configurations used as test fixtures -/

def cA : Commit := ⟨"aa111111", 100, "Root", "root@x", "init", []⟩
def cF1 : Commit := ⟨"ff111111", 900, "Bob", "bob@x", "work x", ["aa111111"]⟩
def cF2 : Commit := ⟨"ff222222", 950, "Carol", "carol@x", "work z", ["aa111111"]⟩
def cF3 : Commit := ⟨"ff333333", 960, "Dan", "dan@x", "work y", ["aa111111"]⟩
def cM1 : Commit :=
  ⟨"ee111111", 1000, "Alice", "alice@x", "Merge branch feature-x, merge request !42",
    ["aa111111", "ff111111"]⟩
def cM2 : Commit :=
  ⟨"ee222222", 2000, "Alice", "alice@x", "Merge branch feature-z", ["ee111111", "ff222222"]⟩

/-- `main` holds two merge commits; `feature-x` and `feature-z` are merged,
`feature-y` is not. -/
def sampleRepo : Repo :=
  { commits := [cA, cF1, cF2, cF3, cM1, cM2]
    heads := [("main", "ee222222"), ("feature-x", "ff111111"), ("feature-z", "ff222222"),
              ("feature-y", "ff333333")]
    remotes := [] }

/-- Two remotes both carrying a branch `foo`, no local `foo`. -/
def remoteRepo : Repo :=
  { commits := [cA, cF1, cF2]
    heads := []
    remotes := [⟨"origin", "git@h:g/r.git", [("origin/foo", "ff111111")]⟩,
                ⟨"upstream", "git@h2:g/r.git", [("upstream/foo", "ff222222")]⟩] }

/-- One remote; local `dev` shadows `origin/dev`; `origin/feat` is new. -/
def singleRemoteRepo : Repo :=
  { commits := [cA, cF1, cF2]
    heads := [("dev", "ff111111")]
    remotes := [⟨"origin", "git@h:g/r.git",
                 [("origin/HEAD", "ff111111"), ("origin/dev", "ff111111"),
                  ("origin/feat", "ff222222")]⟩] }

def ghPlatform : Platform :=
  { name := "GitHub"
    base_url := "https://github.com"
    merge_request_path := "/pull/"
    commit_path := "/commit/"
    sshPrefixStr := "git@github.com:"
    httpsPrefixStr := "https://github.com/" }

/-- A configured repository whose platform key is absent from the platforms
map. -/
def c9Config : Config :=
  { repositories := [{ name := "r", url := "u", type := "ssh", platform := some "missingkey" }]
    platforms := [("github", ghPlatform)] }

/-- A configured repository whose platform key resolves. -/
def c9GoodConfig : Config :=
  { repositories := [{ name := "r", url := "u", type := "ssh", platform := some "github" }]
    platforms := [("github", ghPlatform)] }

def c7Config : Config :=
  { repositories := [{ name := "r1", url := "git@h:a.git", type := "ssh"
                       platform := some "github" }]
    platforms := [] }

def c8Env : LocalEnv :=
  { pathExists := fun p => p = "/repo/plain"
    openRepo := fun _ => .invalidRepo
    remoteOutcome := fun _ => (false, "") }

/-! # Theorems -/

/-! ## Helper lemmas -/

theorem findDupMessage_isSome_of (l : List RepoEntry) (nm u : String)
    (h : ∃ e ∈ l, e.name = nm ∨ e.url = u) : (findDupMessage l nm u).isSome := by
  induction l with
  | nil => simp at h
  | cons a t ih =>
    rw [findDupMessage]
    by_cases h1 : a.name = nm
    · simp [h1]
    · by_cases h2 : a.url = u
      · simp [h1, h2]
      · simp only [h1, h2, if_false]
        apply ih
        rcases h with ⟨e, he, hor⟩
        rcases List.mem_cons.mp he with rfl | hmem
        · rcases hor with h | h <;> contradiction
        · exact ⟨e, hmem, hor⟩

theorem rmAllAux_git_eq : ∀ (fuel : Nat) (cs : List Char), cs.length < fuel →
    rmAllAux ".git".data fuel cs = removeGitSpec cs := by
  intro fuel
  induction fuel with
  | zero => intro cs h; omega
  | succ f ih =>
    intro cs h
    cases cs with
    | nil => rw [rmAllAux, removeGitSpec]
    | cons c rest =>
      rw [rmAllAux]
      by_cases hp : (".git".data.isPrefixOf (c :: rest)) = true
      · have hpre : ".git".data <+: c :: rest := by rwa [List.isPrefixOf_iff_prefix] at hp
        have hlen4 : 4 ≤ (c :: rest).length := by simpa using hpre.length_le
        have htake : (c :: rest).take 4 = ".git".data := by
          have h' := List.prefix_iff_eq_take.mp hpre
          simpa using h'.symm
        rw [if_pos (by simp [hp]), removeGitSpec, if_pos htake]
        have hdrop : (".git".data).length = 4 := rfl
        rw [hdrop]
        apply ih
        simp only [List.length_drop, List.length_cons] at *
        omega
      · have htake : ¬ ((c :: rest).take 4 = ".git".data) := by
          intro hh
          apply hp
          rw [List.isPrefixOf_iff_prefix, List.prefix_iff_eq_take]
          simpa using hh.symm
        rw [if_neg (by simp [hp]), removeGitSpec, if_neg htake]
        have hr : rest.length < f := by simp at h; omega
        rw [ih rest hr]

/-! ## Claim theorems -/

/-- **C1**: for a repository whose source and target refs both resolve, if the
source tip is not an ancestor of the target tip (the `merge_base ≠ source tip`
test of `check_merge_info`), resolution reports `is_merged = false` with
`merge_date` and `merge_commit` null and no `merge_author`, `mr_id` or
`commit_hash` key present. -/
theorem c1_not_ancestor_not_merged (r : Repo) (source_branch target_branch : String)
    (tgtTip : String) (src : Commit)
    (htgt : getBranchRefHash r target_branch = some tgtTip)
    (hsrc : getBranchLastCommit r source_branch = some src)
    (hna : isAncestor r src.hexsha tgtTip = false) :
    check_merge_info r source_branch target_branch = notMergedInfo ∧
    notMergedInfo.is_merged = false ∧
    notMergedInfo.merge_date = none ∧
    notMergedInfo.merge_commit = none ∧
    notMergedInfo.merge_author = none ∧
    notMergedInfo.mr_id = none ∧
    notMergedInfo.commit_hash = none := by
  refine ⟨?_, rfl, rfl, rfl, rfl, rfl, rfl⟩
  simp [check_merge_info, htgt, hsrc, hna]

theorem c1_witness : check_merge_info sampleRepo "feature-y" "main" = notMergedInfo :=
  (c1_not_ancestor_not_merged sampleRepo "feature-y" "main" "ee222222" cF3
    (by decide) (by decide) (by decide)).1

/-- **C2**: when the source tip is an ancestor of the target tip and some
candidate among the 50 most recent merge commits of the target whose message
mentions the source branch has the source tip as ancestor, `check_merge_info`
returns the first such candidate in newest-first order (i.e. the newest one
passing the ancestor check) with `is_merged = true`, its formatted timestamp
as `merge_date`, its author as `merge_author` and its 8-character short hash
as `commit_hash`. -/
theorem c2_merge_commit_selection (r : Repo) (source_branch target_branch : String)
    (tgtTip : String) (src c : Commit)
    (htgt : getBranchRefHash r target_branch = some tgtTip)
    (hsrc : getBranchLastCommit r source_branch = some src)
    (hanc : isAncestor r src.hexsha tgtTip = true)
    (hfind : (gitLogMerges r tgtTip source_branch 50).find?
        (fun cc => isAncestor r src.hexsha cc.hexsha) = some c) :
    check_merge_info r source_branch target_branch =
      { is_merged := true
        merge_date := some (formatTimestamp c.committedDate)
        merge_commit := some (match extract_merge_request_id (firstLineOf c.message) with
          | some m => m ++ " (" ++ shortHash c.hexsha ++ ")"
          | none => shortHash c.hexsha ++ " (合并提交)")
        merge_author := some c.authorName
        mr_id := some (extract_merge_request_id (firstLineOf c.message))
        commit_hash := some (shortHash c.hexsha) } := by
  simp [check_merge_info, htgt, hsrc, hanc, find_merge_commit_efficient, hfind]

theorem c2_witness : check_merge_info sampleRepo "feature-x" "main" =
    { is_merged := true
      merge_date := some "1970-01-01 00:16:40"
      merge_commit := some "!42 (ee111111)"
      merge_author := some "Alice"
      mr_id := some (some "!42")
      commit_hash := some "ee111111" } :=
  c2_merge_commit_selection sampleRepo "feature-x" "main" "ee222222" cF1 cM1
    (by decide) (by decide) (by decide) (by decide)

/-- **C3**: change-request-id extraction tries the fixed priority order
`merge request !N`, `!N`, `pull request #N`, `#N`, `PR N`/`pr N`
(case-insensitively) and formats the first hit as `!N` / `#N` / `PR N`; in
particular `"merge request !42 fixes #7"` yields `"!42"` (never `"#7"`) and a
subject matching none of the patterns yields `none`. -/
theorem c3_extract_priority :
    extract_merge_request_id "merge request !42 fixes #7" = some "!42" ∧
    (∀ msg : String,
      scanLitDigits "merge request !".data msg.data = none →
      scanLitDigits "!".data msg.data = none →
      scanLitDigits "pull request #".data msg.data = none →
      scanLitDigits "#".data msg.data = none →
      scanLitDigits "PR ".data msg.data = none →
      scanLitDigits "pr ".data msg.data = none →
      extract_merge_request_id msg = none) ∧
    (∀ msg ds, scanLitDigits "merge request !".data msg.data = some ds →
      extract_merge_request_id msg = some ("!" ++ String.mk ds)) ∧
    (∀ msg ds, scanLitDigits "merge request !".data msg.data = none →
      scanLitDigits "!".data msg.data = some ds →
      extract_merge_request_id msg = some ("!" ++ String.mk ds)) ∧
    (∀ msg ds, scanLitDigits "merge request !".data msg.data = none →
      scanLitDigits "!".data msg.data = none →
      scanLitDigits "pull request #".data msg.data = some ds →
      extract_merge_request_id msg = some ("#" ++ String.mk ds)) ∧
    (∀ msg ds, scanLitDigits "merge request !".data msg.data = none →
      scanLitDigits "!".data msg.data = none →
      scanLitDigits "pull request #".data msg.data = none →
      scanLitDigits "#".data msg.data = some ds →
      extract_merge_request_id msg = some ("#" ++ String.mk ds)) ∧
    (∀ msg ds, scanLitDigits "merge request !".data msg.data = none →
      scanLitDigits "!".data msg.data = none →
      scanLitDigits "pull request #".data msg.data = none →
      scanLitDigits "#".data msg.data = none →
      scanLitDigits "PR ".data msg.data = some ds →
      extract_merge_request_id msg = some ("PR " ++ String.mk ds)) := by
  refine ⟨by decide, ?_, ?_, ?_, ?_, ?_, ?_⟩ <;>
    intro msg ds <;> intros <;> simp [extract_merge_request_id, *]

theorem c3_witness :
    extract_merge_request_id "no pattern here" = none ∧
    extract_merge_request_id "see !5 and #9" = some ("!" ++ String.mk ['5']) :=
  ⟨c3_extract_priority.2.1 "no pattern here"
      (by decide) (by decide) (by decide) (by decide) (by decide) (by decide),
   c3_extract_priority.2.2.2.1 "see !5 and #9" ['5'] (by decide) (by decide)⟩

/-- **C8**: for a non-remote-classified input, `connect_repo` answers the
NotFound message when the path does not exist and the distinct
InvalidRepository message when the path exists but is not a valid Git working
copy (so a plain existing directory yields InvalidRepository, never
NotFound). -/
theorem c8_local_connect_errors (env : LocalEnv) (repo_input : String)
    (hloc : is_remote_url repo_input = false) :
    (env.pathExists repo_input = false →
      connect_repo env repo_input = (false, msgNotFound)) ∧
    (env.pathExists repo_input = true → env.openRepo repo_input = .invalidRepo →
      connect_repo env repo_input = (false, msgInvalidRepo)) ∧
    msgNotFound ≠ msgInvalidRepo := by
  refine ⟨?_, ?_, by decide⟩
  · intro hmiss; simp [connect_repo, hloc, hmiss]
  · intro hex hinv; simp [connect_repo, hloc, hex, hinv]

theorem c8_witness :
    connect_repo c8Env "/repo/plain" = (false, msgInvalidRepo) ∧
    connect_repo c8Env "/repo/missing" = (false, msgNotFound) :=
  ⟨(c8_local_connect_errors c8Env "/repo/plain" (by decide)).2.1 (by decide) rfl,
   (c8_local_connect_errors c8Env "/repo/missing" (by decide)).1 (by decide)⟩

/-- **C7**: an add-repository request whose (stripped) name or url duplicates
an existing configured repository is rejected (`success = false`), nothing is
appended, and no save is performed. -/
theorem c7_duplicate_repo_rejected (persisted : Config) (data : AddRepoRequest)
    (hdup : ∃ e ∈ persisted.repositories,
      e.name = pyStrip data.name ∨ e.url = pyStrip data.url) :
    (add_repository persisted (some data)).success = false ∧
    (add_repository persisted (some data)).savePerformed = false ∧
    (add_repository persisted (some data)).config = persisted := by
  by_cases h1 : pyStrip data.name = ""
  · simp [add_repository, h1]
  · by_cases h2 : pyStrip data.url = ""
    · simp [add_repository, h1, h2]
    · obtain ⟨msg, hmsg⟩ := Option.isSome_iff_exists.mp
        (findDupMessage_isSome_of persisted.repositories (pyStrip data.name)
          (pyStrip data.url) hdup)
      simp [add_repository, h1, h2, hmsg]

theorem c7_witness :
    (add_repository c7Config (some { name := " r1 ", url := "git@h:b.git" })).success = false ∧
    (add_repository c7Config (some { name := " r1 ", url := "git@h:b.git" })).savePerformed
      = false ∧
    (add_repository c7Config (some { name := " r1 ", url := "git@h:b.git" })).config
      = c7Config :=
  c7_duplicate_repo_rejected c7Config { name := " r1 ", url := "git@h:b.git" }
    ⟨{ name := "r1", url := "git@h:a.git", type := "ssh", platform := some "github" },
      by decide, Or.inl (by decide)⟩

/-- **C6 counterexample**: the cache-directory name is *not* the last URL path
segment with only a trailing `.git` stripped — `str.replace('.git', '')`
removes interior occurrences too. -/
theorem c6_counterexample :
    cacheDirName "https://h/a.gitb.git" = "ab" ∧
    stripTrailingGit (lastSegmentOf "https://h/a.gitb.git") = "a.gitb" ∧
    cacheDirName "https://h/a.gitb.git" ≠
      stripTrailingGit (lastSegmentOf "https://h/a.gitb.git") := by
  exact ⟨by decide, by decide, by decide⟩

/-- **C6 (amended)**: the cache-directory name equals the last `/`-separated
segment of the URL with **every** occurrence of `.git` removed (leftmost,
non-overlapping); in the common case of a single trailing `.git` this
coincides with suffix stripping (`"git@h:g/repo.git" ↦ "repo"`). -/
theorem c6_amended (repo_input : String) :
    (cacheDirName repo_input).data = removeGitSpec (lastSegmentOf repo_input).data ∧
    cacheDirName "git@h:g/repo.git" = "repo" := by
  constructor
  · show (pyRemoveAll (lastSegmentOf repo_input) ".git").data = _
    unfold pyRemoveAll
    exact rmAllAux_git_eq _ _ (Nat.lt_succ_self _)
  · decide

/-- **C9 counterexample**: platform identification does **not** always end
with a non-null profile: an input URL matching a configured repository entry
whose platform key is absent from the platforms map yields no profile at all
(no fallback scan runs). -/
theorem c9_counterexample : identify_repo_platform c9Config "u" = none := by decide

/-- **C9 (amended)**: if the input URL matches a configured repository entry,
the entry's platform key decides the outcome — a truthy key present in the
platforms map yields that profile, otherwise **no** profile (`none`), with no
fallback; only when no entry matches does the prefix/substring scan run, and
that scan always produces some profile (the built-in default at worst). -/
theorem c9_amended (cfg : Config) (repo_input : String) :
    (∀ e k p, cfg.repositories.find? (fun e' => e'.url = repo_input) = some e →
      e.platform = some k → k ≠ "" → lookupPlatform cfg k = some p →
      identify_repo_platform cfg repo_input = some p) ∧
    (∀ e, cfg.repositories.find? (fun e' => e'.url = repo_input) = some e →
      (∀ k, e.platform = some k → k = "" ∨ lookupPlatform cfg k = none) →
      identify_repo_platform cfg repo_input = none) ∧
    (cfg.repositories.find? (fun e' => e'.url = repo_input) = none →
      identify_repo_platform cfg repo_input = auto_identify_platform cfg repo_input ∧
      (auto_identify_platform cfg repo_input).isSome) := by
  refine ⟨?_, ?_, ?_⟩
  · intro e k p hfind hk hne hlook
    simp [identify_repo_platform, hfind, hk, hne, hlook]
  · intro e hfind hbad
    cases hplat : e.platform with
    | none => simp [identify_repo_platform, hfind, hplat]
    | some k =>
      rcases hbad k hplat with hk | hk
      · simp [identify_repo_platform, hfind, hplat, hk]
      · simp [identify_repo_platform, hfind, hplat, hk]
  · intro hfind
    refine ⟨by simp [identify_repo_platform, hfind], ?_⟩
    rw [auto_identify_platform]
    cases h : cfg.platforms.find? (fun p =>
        (p.2.sshPrefixStr ≠ "" && pyStartsWith repo_input p.2.sshPrefixStr) ||
        (p.2.httpsPrefixStr ≠ "" && pyStartsWith repo_input p.2.httpsPrefixStr) ||
        pyContains repo_input p.1) <;> simp

theorem c9_witness : identify_repo_platform c9GoodConfig "u" = some ghPlatform :=
  (c9_amended c9GoodConfig "u").1
    { name := "r", url := "u", type := "ssh", platform := some "github" }
    "github" ghPlatform (by decide) (by decide) (by decide) (by decide)

/-- **C10**: with no successfully connected repository (the session's
repository handle is unset), branch enumeration and merge-status reporting
both return the empty list (the model is total: no exception is possible). -/
theorem c10_no_repo_empty (pc : Option Platform) (keyword target_branch : String) :
    get_all_branches none = [] ∧
    check_branch_merge_status pc none keyword target_branch = [] :=
  ⟨rfl, rfl⟩

/-! ## Branch-enumeration lemmas (towards C4) -/

theorem remoteType_ne_local (s : String) : ("remote (" ++ s ++ ")") ≠ "local" := by
  intro h
  have hl := congrArg String.length h
  rw [String.length_append, String.length_append] at hl
  have h8 : "remote (".length = 8 := rfl
  have h1 : ")".length = 1 := rfl
  have h5 : "local".length = 5 := rfl
  rw [h8, h1, h5] at hl
  omega

theorem collectLocals_spec (r : Repo) :
    ∀ hs, (∀ p ∈ hs, (lookupCommit r p.2).isSome) →
      (collectLocals r hs).2 = false ∧
      (collectLocals r hs).1.map (fun e => e.name) = hs.map (fun p => p.1) ∧
      ∀ e ∈ (collectLocals r hs).1, e.type = "local" := by
  intro hs
  induction hs with
  | nil => intro _; exact ⟨rfl, rfl, by simp [collectLocals]⟩
  | cons p t ih =>
    intro hres
    obtain ⟨nm, h⟩ := p
    obtain ⟨c, hc⟩ := Option.isSome_iff_exists.mp (hres (nm, h) (List.mem_cons_self _ _))
    have iht := ih (fun q hq => hres q (List.mem_cons_of_mem _ hq))
    rw [collectLocals, hc]
    refine ⟨iht.1, ?_, ?_⟩
    · simp only [List.map_cons]
      rw [iht.2.1]
      rfl
    · intro e he
      rcases List.mem_cons.mp he with rfl | hmem
      · rfl
      · exact iht.2.2 e hmem

theorem hasLocalNamed_append_nonlocal (acc add : List BranchInfo)
    (h : ∀ e ∈ add, e.type ≠ "local") (bn : String) :
    hasLocalNamed (acc ++ add) bn = hasLocalNamed acc bn := by
  unfold hasLocalNamed
  rw [List.any_append]
  have : add.any (fun b => b.name = bn && b.type = "local") = false := by
    rw [List.any_eq_false]
    intro e he
    simp [h e he]
  simp [this]

theorem hasLocalNamed_all_local (L : List BranchInfo)
    (hall : ∀ e ∈ L, e.type = "local") (nm : String) :
    hasLocalNamed L nm = true ↔ nm ∈ L.map (fun e => e.name) := by
  unfold hasLocalNamed
  rw [List.any_eq_true]
  constructor
  · rintro ⟨e, he, hp⟩
    simp only [Bool.and_eq_true, decide_eq_true_eq] at hp
    exact List.mem_map.mpr ⟨e, he, hp.1⟩
  · intro hmem
    obtain ⟨e, he, hnm⟩ := List.mem_map.mp hmem
    exact ⟨e, he, by simp [hnm, hall e he]⟩

theorem addRemoteRefs_shape (r : Repo) (rem : RemoteInfo) :
    ∀ refs acc, ∃ add, addRemoteRefs r rem acc refs = acc ++ add ∧
      ((add.map (fun e => e.name)).Sublist (strippedNames rem refs)) ∧
      ∀ e ∈ add, e.type = "remote (" ++ rem.name ++ ")" ∧
        hasLocalNamed acc e.name = false := by
  intro refs
  induction refs with
  | nil => intro acc; exact ⟨[], by simp [addRemoteRefs], by simp [strippedNames], by simp⟩
  | cons pr t ih =>
    intro acc
    obtain ⟨refName, h⟩ := pr
    rw [addRemoteRefs]
    by_cases hhead : refName = rem.name ++ "/HEAD"
    · rw [if_pos hhead]
      obtain ⟨add, heq, hsub, hprop⟩ := ih acc
      refine ⟨add, heq, ?_, hprop⟩
      simpa [strippedNames, hhead] using hsub
    · rw [if_neg hhead]
      have hstripped : strippedNames rem ((refName, h) :: t) =
          stripRemoteName rem.name refName :: strippedNames rem t := by
        simp [strippedNames, hhead]
      by_cases hloc : hasLocalNamed acc (stripRemoteName rem.name refName) = true
      · rw [if_pos hloc]
        obtain ⟨add, heq, hsub, hprop⟩ := ih acc
        exact ⟨add, heq, by rw [hstripped]; exact hsub.cons _, hprop⟩
      · rw [if_neg hloc]
        cases hlk : lookupCommit r h with
        | none =>
          obtain ⟨add, heq, hsub, hprop⟩ := ih acc
          exact ⟨add, heq, by rw [hstripped]; exact hsub.cons _, hprop⟩
        | some c =>
          set entry := remoteBranchEntry rem.name (stripRemoteName rem.name refName) c with hentry
          obtain ⟨add, heq, hsub, hprop⟩ := ih (acc ++ [entry])
          have hent_nonlocal : ∀ x ∈ [entry], x.type ≠ "local" := by
            intro x hx
            rw [List.mem_singleton] at hx
            subst hx
            exact remoteType_ne_local _
          refine ⟨entry :: add, ?_, ?_, ?_⟩
          · show addRemoteRefs r rem (acc ++ [entry]) t = acc ++ entry :: add
            rw [heq, List.append_assoc]
            rfl
          · rw [hstripped]
            simp only [List.map_cons]
            exact List.Sublist.cons₂ _ hsub
          · intro e he
            rcases List.mem_cons.mp he with rfl | hmem
            · exact ⟨rfl, by simpa using Bool.eq_false_iff.mpr hloc⟩
            · obtain ⟨ht, hl⟩ := hprop e hmem
              refine ⟨ht, ?_⟩
              rwa [hasLocalNamed_append_nonlocal acc [entry] hent_nonlocal] at hl

theorem addAllRemotes_shape (r : Repo) :
    ∀ rems acc, ∃ add, addAllRemotes r acc rems = acc ++ add ∧
      ∀ e ∈ add, e.type ≠ "local" ∧ hasLocalNamed acc e.name = false := by
  intro rems
  induction rems with
  | nil => intro acc; exact ⟨[], by simp [addAllRemotes], by simp⟩
  | cons rem t ih =>
    intro acc
    rw [addAllRemotes]
    obtain ⟨a1, heq1, _, hp1⟩ := addRemoteRefs_shape r rem rem.refs acc
    have ha1 : ∀ e ∈ a1, e.type ≠ "local" := by
      intro e he
      rw [(hp1 e he).1]
      exact remoteType_ne_local _
    obtain ⟨a2, heq2, hp2⟩ := ih (acc ++ a1)
    refine ⟨a1 ++ a2, by rw [heq1, heq2, List.append_assoc], ?_⟩
    intro e he
    rcases List.mem_append.mp he with h1 | h2
    · exact ⟨ha1 e h1, (hp1 e h1).2⟩
    · obtain ⟨ht, hl⟩ := hp2 e h2
      exact ⟨ht, by rwa [hasLocalNamed_append_nonlocal acc a1 ha1] at hl⟩

theorem indexBranchesAux_map_name :
    ∀ (i : Nat) (l : List BranchInfo),
      (indexBranchesAux i l).map (fun e => e.name) = l.map (fun e => e.name) := by
  intro i l
  induction l generalizing i with
  | nil => rfl
  | cons b t ih => simp [indexBranchesAux, ih]

theorem indexBranchesAux_mem :
    ∀ (i : Nat) (l : List BranchInfo), ∀ e ∈ indexBranchesAux i l,
      ∃ e' ∈ l, e.name = e'.name ∧ e.type = e'.type := by
  intro i l
  induction l generalizing i with
  | nil => simp [indexBranchesAux]
  | cons b t ih =>
    intro e he
    rcases List.mem_cons.mp he with rfl | hmem
    · exact ⟨b, List.mem_cons_self _ _, rfl, rfl⟩
    · obtain ⟨e', he', hn, ht⟩ := ih (i + 1) e hmem
      exact ⟨e', List.mem_cons_of_mem _ he', hn, ht⟩

/-- Membership in the final listing, reduced to the pre-sort accumulator. -/
theorem get_all_branches_mem (r : Repo)
    (hres : ∀ p ∈ r.heads, (lookupCommit r p.2).isSome) :
    ∀ e ∈ get_all_branches (some r),
      ∃ e' ∈ addAllRemotes r (collectLocals r r.heads).1 r.remotes,
        e.name = e'.name ∧ e.type = e'.type := by
  have h2 := (collectLocals_spec r r.heads hres).1
  intro e he
  rw [get_all_branches] at he
  simp only [h2, if_false, Bool.false_eq_true] at he
  obtain ⟨e', he', hn, ht⟩ := indexBranchesAux_mem 1 _ e he
  have hperm : List.Perm
      (sortBranches (addAllRemotes r (collectLocals r r.heads).1 r.remotes))
      (addAllRemotes r (collectLocals r r.heads).1 r.remotes) :=
    List.perm_insertionSort _ _
  exact ⟨e', hperm.mem_iff.mp he', hn, ht⟩

/-- **C4 counterexample**: with two remotes both carrying branch `foo` and no
local `foo`, `get_all_branches` lists the name `foo` twice — the dedup test
only suppresses a remote-tracking branch against *local* entries. -/
theorem c4_counterexample :
    ((get_all_branches (some remoteRepo)).map (fun e => e.name)) = ["foo", "foo"] ∧
    ¬ ((get_all_branches (some remoteRepo)).map (fun e => e.name)).Nodup :=
  ⟨by decide, by decide⟩

/-- **C4 (amended)**: branch enumeration never lets a remote-tracking entry
duplicate a *local* branch name — when a local branch and remote-tracking
branches of the same name exist, exactly one entry of that name is listed and
it is the local one — and on repositories with at most one remote (whose
stripped tracking-ref names are distinct) no name is ever listed twice.  With
several remotes the same remote-only name may appear once per remote. -/
theorem c4_amended (r : Repo)
    (hnodup : (r.heads.map (fun p => p.1)).Nodup)
    (hres : ∀ p ∈ r.heads, (lookupCommit r p.2).isSome) :
    (∀ e ∈ get_all_branches (some r), e.type ≠ "local" →
      e.name ∉ r.heads.map (fun p => p.1)) ∧
    (∀ nm ∈ r.heads.map (fun p => p.1),
      ((get_all_branches (some r)).map (fun e => e.name)).count nm = 1 ∧
      ∀ e ∈ get_all_branches (some r), e.name = nm → e.type = "local") ∧
    (∀ rem, r.remotes = [rem] → (strippedNames rem rem.refs).Nodup →
      ((get_all_branches (some r)).map (fun e => e.name)).Nodup) := by
  obtain ⟨habort, hnames, hlocal⟩ := collectLocals_spec r r.heads hres
  set L := (collectLocals r r.heads).1 with hL
  obtain ⟨add, heq, hadd⟩ := addAllRemotes_shape r r.remotes L
  have haddname : ∀ e ∈ add, e.name ∉ r.heads.map (fun p => p.1) := by
    intro e he hmem
    have hfalse := (hadd e he).2
    rw [← hnames] at hmem
    have := (hasLocalNamed_all_local L hlocal e.name).mpr hmem
    rw [this] at hfalse
    exact Bool.true_eq_false.mp hfalse
  have hout_names : List.Perm ((get_all_branches (some r)).map (fun e => e.name))
      (L.map (fun e => e.name) ++ add.map (fun e => e.name)) := by
    rw [get_all_branches]
    simp only [habort, if_false, Bool.false_eq_true]
    rw [indexBranches, indexBranchesAux_map_name, ← hL]
    have hperm : List.Perm (sortBranches (addAllRemotes r L r.remotes))
        (addAllRemotes r L r.remotes) :=
      List.perm_insertionSort _ _
    have heq2 : (addAllRemotes r L r.remotes).map (fun e => e.name) =
        L.map (fun e => e.name) ++ add.map (fun e => e.name) := by
      rw [heq, List.map_append]
    rw [← heq2]
    exact hperm.map _
  refine ⟨?_, ?_, ?_⟩
  · intro e he hne
    obtain ⟨e', he', hn, ht⟩ := get_all_branches_mem r hres e he
    rw [heq] at he'
    rcases List.mem_append.mp he' with h1 | h2
    · exact absurd (ht ▸ hlocal e' h1) hne
    · rw [hn]; exact haddname e' h2
  · intro nm hnm
    constructor
    · rw [hout_names.count_eq, List.count_append]
      have h1 : (L.map (fun e => e.name)).count nm = 1 := by
        rw [hnames]
        exact List.count_eq_one_of_mem hnodup hnm
      have h0 : (add.map (fun e => e.name)).count nm = 0 := by
        rw [List.count_eq_zero]
        intro hmem
        obtain ⟨e, he, hen⟩ := List.mem_map.mp hmem
        exact haddname e he (hen ▸ hnm)
      omega
    · intro e he hen
      obtain ⟨e', he', hn, ht⟩ := get_all_branches_mem r hres e he
      rw [heq] at he'
      rcases List.mem_append.mp he' with h1 | h2
      · rw [ht]; exact hlocal e' h1
      · exact absurd (hn ▸ hen ▸ hnm) (haddname e' h2)
  · intro rem hrem hsn
    rw [hout_names.nodup_iff, List.nodup_append]
    refine ⟨by rw [hnames]; exact hnodup, ?_, ?_⟩
    · obtain ⟨a1, heq1, hsub1, _⟩ := addRemoteRefs_shape r rem rem.refs L
      have hone : addAllRemotes r L r.remotes = addRemoteRefs r rem L rem.refs := by
        rw [hrem, addAllRemotes, addAllRemotes]
      have hadd_eq : add = a1 :=
        List.append_cancel_left (by rw [← heq, hone, heq1])
      rw [hadd_eq]
      exact hsub1.nodup hsn
    · intro a ha hmem2
      obtain ⟨e, he, hen⟩ := List.mem_map.mp hmem2
      rw [hnames] at ha
      exact haddname e he (hen ▸ ha)

/-! ## Date round-trip lemmas (towards C5) -/

theorem yearFromDays_fst_ge : ∀ (fuel y d : Nat), y ≤ (yearFromDays fuel y d).1 := by
  intro fuel
  induction fuel with
  | zero => intro y d; exact le_refl y
  | succ f ih =>
    intro y d
    rw [yearFromDays]
    split
    · exact le_refl y
    · exact le_trans (Nat.le_succ y) (ih (y + 1) _)

theorem civilFromDays_year_ge (days : Nat) : 1970 ≤ (civilFromDays days).1 :=
  yearFromDays_fst_ge _ 1970 days

theorem isDigitChar_digitChar (k : Nat) : isDigitChar (digitChar k) = true := by
  match k with
  | 0 | 1 | 2 | 3 | 4 | 5 | 6 | 7 | 8 => decide
  | n + 9 => rfl

theorem dval_digitChar : ∀ k : Nat, k < 10 → dval (digitChar k) = k
  | 0, _ | 1, _ | 2, _ | 3, _ | 4, _ | 5, _ | 6, _ | 7, _ | 8, _ | 9, _ => by decide
  | _ + 10, h => absurd h (by omega)

theorem natDigitsAux_all_digits :
    ∀ (fuel n : Nat), ∀ c ∈ natDigitsAux fuel n, isDigitChar c = true := by
  intro fuel
  induction fuel with
  | zero => intro n c hc; simp [natDigitsAux] at hc
  | succ f ih =>
    intro n c hc
    rw [natDigitsAux] at hc
    by_cases h10 : n < 10
    · rw [if_pos h10] at hc
      rw [List.mem_singleton] at hc
      subst hc
      exact isDigitChar_digitChar n
    · rw [if_neg h10] at hc
      rcases List.mem_append.mp hc with h1 | h2
      · exact ih _ c h1
      · rw [List.mem_singleton] at h2
        subst h2
        exact isDigitChar_digitChar _

theorem valDigits_append_digit (xs : List Char) (c : Char) :
    valDigits (xs ++ [c]) = valDigits xs * 10 + dval c := by
  simp [valDigits, List.foldl_append]

theorem natDigitsAux_val : ∀ (fuel n : Nat), n < fuel →
    valDigits (natDigitsAux fuel n) = n := by
  intro fuel
  induction fuel with
  | zero => intro n h; omega
  | succ f ih =>
    intro n h
    rw [natDigitsAux]
    by_cases h10 : n < 10
    · rw [if_pos h10]
      show valDigits [digitChar n] = n
      have := dval_digitChar n h10
      simp [valDigits, this]
    · rw [if_neg h10, valDigits_append_digit]
      have hdiv : n / 10 < n := Nat.div_lt_self (by omega) (by omega)
      rw [ih (n / 10) (by omega), dval_digitChar (n % 10) (Nat.mod_lt n (by omega))]
      omega

theorem natDigitsAux_len_ge : ∀ (k fuel n : Nat), n < fuel → 10 ^ k ≤ n →
    k + 1 ≤ (natDigitsAux fuel n).length := by
  intro k
  induction k with
  | zero =>
    intro fuel n hf h1
    simp only [pow_zero] at h1
    cases fuel with
    | zero => omega
    | succ f =>
      rw [natDigitsAux]
      by_cases h10 : n < 10
      · rw [if_pos h10]; simp
      · rw [if_neg h10]; simp
  | succ k ih =>
    intro fuel n hf hp
    have h10 : 10 ≤ n := by
      calc (10 : Nat) = 10 ^ 1 := by norm_num
        _ ≤ 10 ^ (k + 1) := Nat.pow_le_pow_right (by omega) (by omega)
        _ ≤ n := hp
    cases fuel with
    | zero => omega
    | succ f =>
      rw [natDigitsAux, if_neg (by omega), List.length_append]
      have hdiv : n / 10 < n := Nat.div_lt_self (by omega) (by omega)
      have hpk : 10 ^ k ≤ n / 10 := by
        rw [Nat.le_div_iff_mul_le (by omega : 0 < 10)]
        calc 10 ^ k * 10 = 10 ^ (k + 1) := by rw [pow_succ]
          _ ≤ n := hp
      have hih := ih f (n / 10) (by omega) hpk
      simp only [List.length_cons, List.length_nil]
      omega

theorem isDigitChar_ne_dash (c : Char) (h : isDigitChar c = true) : c ≠ '-' := by
  intro he
  subst he
  exact absurd h (by decide)

/-- If a string starting with the decimal rendering of `Y ≥ 1000` followed by
`'-'` parses, the parsed year component is `Y` itself: with exactly four
digits the `%Y` field reads them all back, and with five or more the fifth
digit fails the expected `'-'`. -/
theorem parseDateTimeChars_year (Y : Nat) (hY : 1000 ≤ Y) (R : List Char) (dt : DT6)
    (h : parseDateTimeChars (natDigits Y ++ '-' :: R) = some dt) :
    ∃ t, dt = toLex (Y, t) := by
  have hlen : 4 ≤ (natDigits Y).length :=
    natDigitsAux_len_ge 3 (Y + 1) Y (Nat.lt_succ_self Y)
      (by calc (10 : Nat) ^ 3 = 1000 := by norm_num
            _ ≤ Y := hY)
  have hdig : ∀ x ∈ natDigits Y, isDigitChar x = true :=
    natDigitsAux_all_digits (Y + 1) Y
  have hval : valDigits (natDigits Y) = Y :=
    natDigitsAux_val (Y + 1) Y (Nat.lt_succ_self Y)
  rcases hnd : natDigits Y with _ | ⟨a, _ | ⟨b, _ | ⟨c, _ | ⟨d, tail⟩⟩⟩⟩ <;>
    rw [hnd] at hlen hdig hval h
  · simp at hlen
  · simp at hlen
  · simp at hlen
  · simp at hlen
  · have ha := hdig a (by simp)
    have hb := hdig b (by simp)
    have hc2 := hdig c (by simp)
    have hd2 := hdig d (by simp)
    cases tail with
    | nil =>
      have hv : ((dval a * 10 + dval b) * 10 + dval c) * 10 + dval d = Y := by
        rw [← hval]
        simp [valDigits]
      simp only [List.cons_append, List.nil_append] at h
      simp only [parseDateTimeChars, readDigit, ha, hb, hc2, hd2, if_true, bind, Option.bind,
        expectChar] at h
      rw [hv] at h
      rcases hpa : parseAfterYear Y R with _ | t
      · rw [hpa] at h
        simp at h
      · rw [hpa] at h
        simp only [pure] at h
        exact ⟨t, (Option.some.inj h).symm⟩
    | cons e tail2 =>
      have he := hdig e (by simp)
      have hne : e ≠ '-' := isDigitChar_ne_dash e he
      simp only [List.cons_append] at h
      simp [parseDateTimeChars, readDigit, ha, hb, hc2, hd2, bind, Option.bind,
        expectChar, hne] at h

/-- The parsed year of a parsed `strftime` output is the civil year of the
timestamp — in particular at least 1970, never `datetime.min`'s year 1. -/
theorem parse_format_year (ts : Nat) (dt : DT6)
    (h : parseDateTime (formatTimestamp ts) = some dt) :
    ∃ t, dt = toLex ((civilFromDays (ts / 86400)).1, t) := by
  have hY : 1000 ≤ (civilFromDays (ts / 86400)).1 :=
    le_trans (by omega) (civilFromDays_year_ge _)
  have hdata : parseDateTime (formatTimestamp ts) =
      parseDateTimeChars (natDigits (civilFromDays (ts / 86400)).1 ++ '-' ::
        (pad2 (civilFromDays (ts / 86400)).2.1 ++ '-' ::
          (pad2 (civilFromDays (ts / 86400)).2.2 ++ ' ' ::
            (pad2 (ts % 86400 / 3600) ++ ':' ::
              (pad2 (ts % 86400 % 3600 / 60) ++ ':' :: pad2 (ts % 86400 % 60)))))) := rfl
  rw [hdata] at h
  exact parseDateTimeChars_year _ hY _ dt h

/-! ## Merge-date provenance (towards C5) -/

theorem find_merge_commit_efficient_date_shape (r : Repo) (sid tgt sb : String)
    (info : MergeResolution) (h : find_merge_commit_efficient r sid tgt sb = some info) :
    ∃ ts, info.merge_date = some (formatTimestamp ts) := by
  unfold find_merge_commit_efficient at h
  split at h
  · exact ⟨_, by rw [← Option.some.inj h]⟩
  · split at h
    · exact ⟨_, by rw [← Option.some.inj h]⟩
    · exact absurd h (by simp)

theorem check_merge_info_merged_date (r : Repo) (bn tb : String)
    (h : (check_merge_info r bn tb).is_merged = true) :
    ∃ ts, (check_merge_info r bn tb).merge_date = some (formatTimestamp ts) := by
  obtain ⟨info, hinfo⟩ : ∃ info, check_merge_info r bn tb = info := ⟨_, rfl⟩
  rw [hinfo] at h ⊢
  unfold check_merge_info at hinfo
  split at hinfo
  · rw [← hinfo] at h
    simp [notMergedInfo] at h
  · split at hinfo
    · rw [← hinfo] at h
      simp [notMergedInfo] at h
    · split at hinfo
      · split at hinfo
        · rename_i heq
          obtain ⟨ts, hts⟩ := find_merge_commit_efficient_date_shape r _ _ _ _ heq
          exact ⟨ts, by rw [← hinfo]; exact hts⟩
        · exact ⟨_, by rw [← hinfo]⟩
      · rw [← hinfo] at h
        simp [notMergedInfo] at h

theorem rowOf_merged_date (pc : Option Platform) (r : Repo) (gurl ppath bn tb : String)
    (h : (rowOf pc r gurl ppath bn tb).is_merged = true) :
    ∃ ts, (rowOf pc r gurl ppath bn tb).merge_date = some (formatTimestamp ts) :=
  check_merge_info_merged_date r bn tb h

theorem resultsFor_merged_date (pc : Option Platform) (r : Repo) (kw tb : String)
    (row : ResultRow) (hmem : row ∈ resultsFor pc r kw tb) (h : row.is_merged = true) :
    ∃ ts, row.merge_date = some (formatTimestamp ts) := by
  obtain ⟨bn, _, rfl⟩ := List.mem_map.mp hmem
  exact rowOf_merged_date pc r _ _ bn tb h

/-! ## Sort-key evaluation lemmas -/

theorem rowKey_of_not_merged (row : ResultRow) (h : row.is_merged = false) :
    rowKey row = toLex (0, minDT) := by
  rcases hd : row.merge_date with _ | s
  · simp [rowKey, hd]
  · simp [rowKey, hd, h]

theorem rowKey_of_parsed (row : ResultRow) (d : DT6) (h : mergedWithParsedDate row d) :
    rowKey row = toLex (1, d) := by
  obtain ⟨hm, s, hd, hne, hp⟩ := h
  simp [rowKey, hd, hm, hne, hp]

theorem rowKey_of_unparsable (row : ResultRow) (h : mergedUnparsable row) :
    rowKey row = toLex (1, minDT) := by
  obtain ⟨hm, s, hd, hne, hp⟩ := h
  simp [rowKey, hd, hm, hne, hp]

/-- **C5**: in the list returned by `check_branch_merge_status` (sorted by the
two-level key `(merged-flag, parsed-date)` descending): a not-merged entry
never precedes a merged entry with a parsable date; among merged entries with
parsable dates, later dates come first; and after a merged entry whose
(truthy) merge date fails to parse, no merged entry with a parsable date
follows — unparsable merged entries sort last within the merged group. -/
theorem c5_report_sorting (pc : Option Platform) (o : Option Repo)
    (keyword target_branch : String) :
    ∀ i j : Fin (check_branch_merge_status pc o keyword target_branch).length,
      i < j →
      (((check_branch_merge_status pc o keyword target_branch).get i).is_merged = false →
        ∀ d : DT6,
          ¬ mergedWithParsedDate
            ((check_branch_merge_status pc o keyword target_branch).get j) d) ∧
      (∀ di dj : DT6,
        mergedWithParsedDate ((check_branch_merge_status pc o keyword target_branch).get i) di →
        mergedWithParsedDate ((check_branch_merge_status pc o keyword target_branch).get j) dj →
        dj ≤ di) ∧
      (mergedUnparsable ((check_branch_merge_status pc o keyword target_branch).get i) →
        ∀ d : DT6,
          ¬ mergedWithParsedDate
            ((check_branch_merge_status pc o keyword target_branch).get j) d) := by
  cases o with
  | none =>
    intro i j _
    exfalso
    have hlt := i.isLt
    have h0 : (check_branch_merge_status pc none keyword target_branch).length = 0 := rfl
    omega
  | some r =>
    intro i j hij
    have hs : check_branch_merge_status pc (some r) keyword target_branch =
        (resultsFor pc r keyword target_branch).insertionSort rowGe := rfl
    have hsorted : (check_branch_merge_status pc (some r) keyword target_branch).Sorted rowGe := by
      rw [hs]
      exact List.sorted_insertionSort rowGe _
    have hrel : rowKey ((check_branch_merge_status pc (some r) keyword target_branch).get j) ≤
        rowKey ((check_branch_merge_status pc (some r) keyword target_branch).get i) :=
      hsorted.rel_get_of_lt hij
    refine ⟨?_, ?_, ?_⟩
    · intro hi d hjd
      rw [rowKey_of_parsed _ d hjd, rowKey_of_not_merged _ hi] at hrel
      rcases (Prod.Lex.le_iff _ _).mp hrel with hlt | ⟨heq, _⟩
      · simp at hlt
      · simp at heq
    · intro di dj hdi hdj
      rw [rowKey_of_parsed _ di hdi, rowKey_of_parsed _ dj hdj] at hrel
      rcases (Prod.Lex.le_iff _ _).mp hrel with hlt | ⟨_, hle⟩
      · simp at hlt
      · exact hle
    · intro hi d hjd
      rw [rowKey_of_parsed _ d hjd, rowKey_of_unparsable _ hi] at hrel
      rcases (Prod.Lex.le_iff _ _).mp hrel with hlt | ⟨_, hle⟩
      · simp at hlt
      · exfalso
        have hjm : (check_branch_merge_status pc (some r) keyword target_branch).get j ∈
            check_branch_merge_status pc (some r) keyword target_branch :=
          List.get_mem _ _ _
        have hperm : List.Perm (check_branch_merge_status pc (some r) keyword target_branch)
            (resultsFor pc r keyword target_branch) := by
          rw [hs]
          exact List.perm_insertionSort _ _
        have hjr := hperm.mem_iff.mp hjm
        obtain ⟨hm, s, hd, hne, hp⟩ := hjd
        obtain ⟨ts, hts⟩ := resultsFor_merged_date pc r keyword target_branch _ hjr hm
        have hsf : s = formatTimestamp ts := Option.some.inj (hd ▸ hts)
        rw [hsf] at hp
        obtain ⟨t, ht⟩ := parse_format_year ts d hp
        have hy : 1000 ≤ (civilFromDays (ts / 86400)).1 :=
          le_trans (by omega) (civilFromDays_year_ge _)
        rw [ht] at hle
        simp only [minDT, mkDT] at hle
        rcases (Prod.Lex.le_iff _ _).mp hle with h1 | ⟨h1, _⟩
        · exact absurd h1 (by omega)
        · exact absurd h1 (by omega)

theorem c5_witness :
    mergedWithParsedDate
      ((check_branch_merge_status none (some sampleRepo) "feature" "main").get
        ⟨0, by decide⟩) (mkDT 1970 1 1 0 33 20) ∧
    mergedWithParsedDate
      ((check_branch_merge_status none (some sampleRepo) "feature" "main").get
        ⟨1, by decide⟩) (mkDT 1970 1 1 0 16 40) ∧
    mkDT 1970 1 1 0 16 40 ≤ mkDT 1970 1 1 0 33 20 := by
  have h0 : mergedWithParsedDate
      ((check_branch_merge_status none (some sampleRepo) "feature" "main").get
        ⟨0, by decide⟩) (mkDT 1970 1 1 0 33 20) :=
    ⟨by decide, "1970-01-01 00:33:20", by decide, by decide, by decide⟩
  have h1 : mergedWithParsedDate
      ((check_branch_merge_status none (some sampleRepo) "feature" "main").get
        ⟨1, by decide⟩) (mkDT 1970 1 1 0 16 40) :=
    ⟨by decide, "1970-01-01 00:16:40", by decide, by decide, by decide⟩
  exact ⟨h0, h1,
    (c5_report_sorting none (some sampleRepo) "feature" "main"
      ⟨0, by decide⟩ ⟨1, by decide⟩ (by decide)).2.1 _ _ h0 h1⟩

theorem c4_witness :
    (((get_all_branches (some singleRemoteRepo)).map (fun e => e.name)).count "dev" = 1) ∧
    (((get_all_branches (some singleRemoteRepo)).map (fun e => e.name)).Nodup) :=
  ⟨((c4_amended singleRemoteRepo (by decide) (by decide)).2.1 "dev" (by decide)).1,
   (c4_amended singleRemoteRepo (by decide) (by decide)).2.2
     ⟨"origin", "git@h:g/r.git",
       [("origin/HEAD", "ff111111"), ("origin/dev", "ff111111"), ("origin/feat", "ff222222")]⟩
     (by decide) (by decide)⟩

end PyBranchCheck
